import Mathlib

/-!
Verification of the sheet-mapper tabular-to-geospatial conversion and
view-synchronization engine. The definitions below are a shallow embedding of
the JavaScript sources: `SheetToGeoJSON.processData` / `detectFieldType` /
`convertField` (sheet-to-geojson variants), `convertToGeoJSON`
(sheet-mapper.js), `MapboxGLFilterPanel.applyFilters` / the sidebar proximity
sort (mapbox-gl-filter-panel.js), and `MapboxGLFeatureStateManager`
(mapbox-gl-feature-state-manager.js). JavaScript numbers are modelled as
exact rationals extended with NaN and the two infinities; rows are ordered
association lists (JavaScript objects preserve insertion order and have
unique keys).
-/

namespace SheetMapper

/-! ## JavaScript number model and parseFloat -/

/-- Result of a JavaScript numeric computation: NaN, an infinity
(`inf true` is negative infinity), or a finite value modelled as a rational. -/
inductive JSNum where
  | nan : JSNum
  | inf (neg : Bool) : JSNum
  | fin (q : ℚ) : JSNum
deriving DecidableEq

/-- The JavaScript `isNaN` test. -/
def JSNum.isNaN : JSNum → Bool
  | .nan => true
  | _ => false

/-- The JavaScript comparison `a <= b` (false whenever either side is NaN). -/
def jsLe : JSNum → JSNum → Bool
  | .nan, _ => false
  | _, .nan => false
  | .inf true, _ => true
  | _, .inf true => false
  | _, .inf false => true
  | .inf false, _ => false
  | .fin a, .fin b => decide (a ≤ b)

/-- Whitespace skipped by `parseFloat` at the start of its input. -/
def jsWhitespace (c : Char) : Bool :=
  c = ' ' || c = '\t' || c = '\n' || c = '\r' || c = '\x0b' || c = '\x0c'

/-- Lower-casing as `toLowerCase` performs it on the ASCII strings this
pipeline compares (built character-wise so that it also reduces inside the
kernel). -/
def jsToLower (s : String) : String := String.mk (s.data.map Char.toLower)

/-- Numeric value of a decimal digit character. -/
def digitVal (c : Char) : ℕ := c.toNat - '0'.toNat

/-- Value of a digit string read in base 10. -/
def digitsToNat (ds : List Char) : ℕ :=
  ds.foldl (fun acc c => acc * 10 + digitVal c) 0

/-- Exponent part of a JavaScript decimal literal: `e`/`E`, an optional sign
and at least one digit; anything else contributes exponent 0 (the literal
ends before the `e`). -/
def parseExpPart (cs : List Char) : ℤ :=
  match cs with
  | [] => 0
  | c :: rest =>
    if c = 'e' || c = 'E' then
      let (sgn, rest2) :=
        match rest with
        | '-' :: r => (true, r)
        | '+' :: r => (false, r)
        | _ => (false, rest)
      let ds := (rest2.span Char.isDigit).1
      if ds.isEmpty then 0
      else if sgn then -(digitsToNat ds : ℤ) else (digitsToNat ds : ℤ)
    else 0

/-- Value of a decimal literal with integer digits `ip`, fraction digits
`fp` and decimal exponent `e`: the rational
`(ip.fp as an integer) * 10 ^ (e - fp.length)`, built with `mkRat` so that
only integer arithmetic is involved. -/
def decValue (ip fp : List Char) (e : ℤ) : ℚ :=
  let m : ℕ := digitsToNat ip * 10 ^ fp.length + digitsToNat fp
  let sc : ℤ := e - fp.length
  if 0 ≤ sc then mkRat (m * 10 ^ sc.toNat) 1 else mkRat m (10 ^ (-sc).toNat)

/-- Unsigned decimal literal: digits, an optional point with further digits,
and an optional exponent. `none` when no digit is present before the
exponent. -/
def parseDec (cs : List Char) : Option ℚ :=
  let (ip, rest) := cs.span Char.isDigit
  match rest with
  | '.' :: rest2 =>
    let (fp, rest3) := rest2.span Char.isDigit
    if ip.isEmpty && fp.isEmpty then none
    else some (decValue ip fp (parseExpPart rest3))
  | _ =>
    if ip.isEmpty then none
    else some (decValue ip [] (parseExpPart rest))

/-- The JavaScript `parseFloat` on a string: skip leading whitespace, read an
optional sign, then either the literal `Infinity` or the longest decimal
literal prefix; NaN when no literal is found. -/
def jsParseFloat (s : String) : JSNum :=
  let cs := s.data.dropWhile jsWhitespace
  let (neg, cs2) :=
    match cs with
    | '-' :: r => (true, r)
    | '+' :: r => (false, r)
    | _ => (false, cs)
  if cs2.take 8 = "Infinity".data then JSNum.inf neg
  else
    match parseDec cs2 with
    | some q => JSNum.fin (if neg then -q else q)
    | none => JSNum.nan

/-! ## JavaScript values and row objects -/

/-- A JavaScript value as it occurs in this pipeline: a string, a number, a
boolean, a `Date` object (identified by the string it was constructed from;
dates are only ever compared by reference, never structurally), `null`, or
`undefined`. -/
inductive JSValue where
  | str (s : String) : JSValue
  | num (n : JSNum) : JSValue
  | boolV (b : Bool) : JSValue
  | date (s : String) : JSValue
  | nullV : JSValue
  | undef : JSValue
deriving DecidableEq

/-- A raw spreadsheet row as Papa Parse delivers it without `dynamicTyping`:
an ordered object from column name to cell string. -/
abbrev RawRow := List (String × String)

/-- A row whose cells may hold any JavaScript value (after type coercion, or
parsed with `dynamicTyping`). -/
abbrev Row := List (String × JSValue)

/-- Property access `row[k]` on a raw row; `none` models `undefined`. -/
def lookupStr (row : RawRow) (k : String) : Option String :=
  (row.find? fun p => decide (p.1 = k)).map (·.2)

/-- Property access `row[k]` on a coerced row. -/
def lookupVal (row : Row) (k : String) : Option JSValue :=
  (row.find? fun p => decide (p.1 = k)).map (·.2)

/-- The assignment `row[k] = v` on an object with unique keys: an existing
key keeps its position and gets the new value, a new key is appended. -/
def jsSet (row : Row) (k : String) (v : JSValue) : Row :=
  match row with
  | [] => [(k, v)]
  | p :: rest => if p.1 = k then (k, v) :: rest else p :: jsSet rest k v

/-- `parseFloat` applied to an arbitrary JavaScript value (the value is first
converted to a string: numbers round-trip, `true`/`false`/`null`/`undefined`
and `Date` strings all give NaN). -/
def jsParseFloatVal : JSValue → JSNum
  | .str s => jsParseFloat s
  | .num n => n
  | .boolV _ => .nan
  | .date _ => .nan
  | .nullV => .nan
  | .undef => .nan

/-- `parseFloat(row[k])` on a raw row (`parseFloat(undefined)` is NaN). -/
def pfStr (row : RawRow) (k : String) : JSNum :=
  match lookupStr row k with
  | some s => jsParseFloat s
  | none => .nan

/-- `parseFloat(row[k])` on a coerced row. -/
def pfVal (row : Row) (k : String) : JSNum :=
  match lookupVal row k with
  | some v => jsParseFloatVal v
  | none => .nan

/-! ## SheetToGeoJSON: type inference (detectFieldType / detectFieldTypes) -/

/-- The field types `detectFieldType` distinguishes. -/
inductive FieldType where
  | number | boolean | date | string
deriving DecidableEq

/-- Host-environment behaviour of `Date` that the embedding abstracts:
`dateParseOk v` models `!isNaN(Date.parse(v))` and `dateNonDegenerate v`
models `new Date(v)` being valid with `toISOString()` different from the
epoch. Theorems quantify over this environment, so they hold for every
behaviour of the host's date parser. -/
structure JsEnv where
  dateParseOk : String → Bool
  dateNonDegenerate : String → Bool

/-- The non-empty values of a column: `values.filter(v => v !== null &&
v !== undefined && v !== '')` (a missing cell is `undefined`). -/
def nonEmptyValues (values : List (Option String)) : List String :=
  values.filterMap fun v =>
    match v with
    | some s => if s = "" then none else some s
    | none => none

/-- The per-column type detection of sheet-to-geojson (the variant that
inspects all rows): number when every non-empty value is not NaN under
`parseFloat`, else boolean when every non-empty value is case-insensitively
`true` or `false`, else date when every non-empty value both parses with
`Date.parse` and yields a non-degenerate (non-epoch) `Date`, else string;
a column with no non-empty values is string. -/
def detectFieldType (env : JsEnv) (values : List (Option String)) : FieldType :=
  let nonEmpty := nonEmptyValues values
  if nonEmpty.isEmpty then .string
  else if nonEmpty.all (fun v => !(jsParseFloat v).isNaN) then .number
  else if nonEmpty.all (fun v => jsToLower v = "true" || jsToLower v = "false") then .boolean
  else if nonEmpty.all env.dateParseOk then
    if nonEmpty.all env.dateNonDegenerate then .date else .string
  else .string

/-- The values of column `k` across all rows, `data.map(row => row[k])`. -/
def colValues (data : List RawRow) (k : String) : List (Option String) :=
  data.map fun row => lookupStr row k

/-- The field-type map: one entry per column of the first row, each detected
from that column's values across all rows. -/
def detectFieldTypes (env : JsEnv) (data : List RawRow) : List (String × FieldType) :=
  match data with
  | [] => []
  | first :: _ => first.map fun p => (p.1, detectFieldType env (colValues data p.1))

/-- Field-type lookup `fieldTypes[key]` (`none` models `undefined`, which
sends `convertField` to its default branch). -/
def lookupFT (ft : List (String × FieldType)) (k : String) : Option FieldType :=
  (ft.find? fun p => decide (p.1 = k)).map (·.2)

/-- The coercion `convertField(value, type)`: number via `parseFloat`,
boolean via case-insensitive comparison with `true`, date via `new Date`,
anything else (including an undefined type) unchanged. -/
def convertField (v : String) : Option FieldType → JSValue
  | some .number => .num (jsParseFloat v)
  | some .boolean => .boolV (jsToLower v = "true")
  | some .date => .date v
  | _ => .str v

/-! ## SheetToGeoJSON: processData -/

/-- The row-validity test of `processData`: both coordinates are not NaN
under `parseFloat` and lie in geographic range. -/
def isValidRow (row : RawRow) : Bool :=
  let lon := pfStr row "Longitude"
  let lat := pfStr row "Latitude"
  !lon.isNaN && !lat.isNaN &&
    jsLe (.fin (-180)) lon && jsLe lon (.fin 180) &&
    jsLe (.fin (-90)) lat && jsLe lat (.fin 90)

/-- The in-place update a valid row receives inside `processData`: every
field is coerced to its column's type, then `row.row_number = index + 2` is
assigned (Google Sheets data starts at sheet row 2). -/
def processRow (ft : List (String × FieldType)) (i : ℕ) (row : RawRow) : Row :=
  jsSet (row.map fun p => (p.1, convertField p.2 (lookupFT ft p.1)))
    "row_number" (.num (.fin ((i + 2 : ℕ) : ℚ)))

/-- The `data.forEach((row, index) => ...)` loop of `processData`, started
at index `i`: valid rows are coerced, numbered and collected in order into
`validRows` (first component), invalid rows are retained verbatim in
`invalidRows` (second component). -/
def partitionRows (ft : List (String × FieldType)) : ℕ → List RawRow → List Row × List RawRow
  | _, [] => ([], [])
  | i, row :: rest =>
    let vi := partitionRows ft (i + 1) rest
    if isValidRow row then (processRow ft i row :: vi.1, vi.2) else (vi.1, row :: vi.2)

/-- A GeoJSON point geometry `[lng, lat]`. -/
structure Geometry where
  lng : JSNum
  lat : JSNum
deriving DecidableEq

/-- A GeoJSON feature: a point geometry and the (coerced) row as its
property bag. -/
structure Feature where
  geometry : Geometry
  properties : Row
deriving DecidableEq

/-- The metadata object `processData` attaches to its FeatureCollection. -/
structure Metadata where
  fieldTypes : List (String × FieldType)
  invalidRows : List RawRow
  totalRows : ℕ
  validRows : ℕ
deriving DecidableEq

/-- A FeatureCollection as `processData` returns it. -/
structure FeatureCollection where
  features : List Feature
  metadata : Metadata
deriving DecidableEq

/-- One feature of the output: geometry re-parsed from the (already coerced)
row's `Longitude`/`Latitude`, properties the coerced row itself. -/
def mkFeature (row : Row) : Feature :=
  { geometry := { lng := pfVal row "Longitude", lat := pfVal row "Latitude" }
    properties := row }

/-- `SheetToGeoJSON.processData`: detect field types, partition the rows by
coordinate validity (coercing and numbering the valid ones), and build the
FeatureCollection with its metadata. -/
def processData (env : JsEnv) (data : List RawRow) : FeatureCollection :=
  let ft := detectFieldTypes env data
  let vi := partitionRows ft 0 data
  { features := vi.1.map mkFeature
    metadata :=
      { fieldTypes := ft
        invalidRows := vi.2
        totalRows := data.length
        validRows := vi.1.length } }

/-- A raw row seen as a JavaScript object before any mutation: every cell is
still a string. -/
def embedRaw (row : RawRow) : Row := row.map fun p => (p.1, .str p.2)

/-- The state of the caller's row objects after `processData` returns,
starting at index `i`: `processData` mutates each valid row in place
(`row[key] = convertField(...)` and `row.row_number = index + 2` act on the
input objects), while invalid rows are left untouched. -/
def rowsAfter (ft : List (String × FieldType)) : ℕ → List RawRow → List Row
  | _, [] => []
  | i, row :: rest =>
    (if isValidRow row then processRow ft i row else embedRaw row) :: rowsAfter ft (i + 1) rest

/-- The state of the input row list after `processData env data` has run. -/
def processDataRowsAfter (env : JsEnv) (data : List RawRow) : List Row :=
  rowsAfter (detectFieldTypes env data) 0 data

/-! ## sheet-mapper.js: convertToGeoJSON (alias detection mode)

Here the rows come from Papa Parse with `dynamicTyping: true`, so cells are
arbitrary JavaScript values (`Row`). -/

/-- Accepted latitude column aliases. -/
def latitudeFields : List String := ["latitude", "lat", "y"]

/-- Accepted longitude column aliases. -/
def longitudeFields : List String := ["longitude", "lon", "lng", "x"]

/-- The keys of a row object, in insertion order (`Object.keys(row)`). -/
def rowKeys (row : Row) : List String := row.map (·.1)

/-- `keys.find(key => aliases.includes(key.toLowerCase()))`. -/
def findField (aliases : List String) (keys : List String) : Option String :=
  keys.find? fun k => aliases.contains (jsToLower k)

/-- Failure outcomes of `convertToGeoJSON`: the rejection whose message
lists the alias sets and embeds `Object.keys(data[0]).join(', ')` (the
column names actually found), the rejection `No valid coordinates found in
the data`, and the TypeError thrown when `data` is empty (reading
`Object.keys(undefined)`). -/
inductive ConvError where
  | missingCoordinateFields (found : List String) : ConvError
  | noValidRows : ConvError
  | jsTypeError : ConvError
deriving DecidableEq

/-- The coordinate validity test of `convertToGeoJSON` for the detected
field names. -/
def validCoords (latF lngF : String) (row : Row) : Bool :=
  let lat := pfVal row latF
  let lng := pfVal row lngF
  !lat.isNaN && !lng.isNaN &&
    jsLe (.fin (-90)) lat && jsLe lat (.fin 90) &&
    jsLe (.fin (-180)) lng && jsLe lng (.fin 180)

/-- One output feature of `convertToGeoJSON`: geometry from the parsed
coordinates, properties `{...row, row_number: index}` where `index` is the
0-based position in the filtered list. -/
def mkAliasFeature (latF lngF : String) (i : ℕ) (row : Row) : Feature :=
  { geometry := { lng := pfVal row lngF, lat := pfVal row latF }
    properties := jsSet row "row_number" (.num (.fin (i : ℚ))) }

/-- Numbering loop for the filtered rows of `convertToGeoJSON`. -/
def numberRows (latF lngF : String) : ℕ → List Row → List Feature
  | _, [] => []
  | i, row :: rest => mkAliasFeature latF lngF i row :: numberRows latF lngF (i + 1) rest

/-- `convertToGeoJSON(data)` of sheet-mapper.js: find the latitude and
longitude columns among the first row's keys by case-insensitive alias
match, reject with the found column names when either is missing, keep the
rows with in-range coordinates, and reject when no feature remains. -/
def convertToGeoJSON (data : List Row) : Except ConvError (List Feature) :=
  match data with
  | [] => .error .jsTypeError
  | first :: _ =>
    let keys := rowKeys first
    match findField latitudeFields keys, findField longitudeFields keys with
    | some latF, some lngF =>
      let features := numberRows latF lngF 0 (data.filter (validCoords latF lngF))
      if features.length = 0 then .error .noValidRows else .ok features
    | _, _ => .error (.missingCoordinateFields keys)

/-! ## MapboxGLFilterPanel: column filters and the proximity sort -/

/-- The strict equality `v === value` between a property value (possibly
`undefined` when the column is absent) and the select's string value: true
exactly for an equal string; a number, boolean, `Date`, `null` or
`undefined` on the left is never strictly equal to a string. -/
def jsStrictEqStr (v : Option JSValue) (value : String) : Bool :=
  match v with
  | some (.str s) => decide (s = value)
  | _ => false

/-- The predicate of `applyFilters` / `getFilteredGeojson`: every entry of
the filter map passes, where an entry passes when its select value is empty
(falsy, pass-through) or the feature's property is strictly equal to it. -/
def matchesFilters (filters : List (String × String)) (f : Feature) : Bool :=
  filters.all fun fs => decide (fs.2 = "") || jsStrictEqStr (lookupVal f.properties fs.1) fs.2

/-- The column-filter stage of `applyFilters`:
`features.filter(feature => ...every active filter matches...)`. -/
def applyColumnFilters (filters : List (String × String)) (features : List Feature) :
    List Feature :=
  features.filter (matchesFilters filters)

/-- Stable insertion of a feature into a distance-sorted list: the new
element goes before the first element it does not exceed, so elements at
equal distance keep their relative order. -/
def insertByDistance (dist : Feature → ℚ) (a : Feature) : List Feature → List Feature
  | [] => [a]
  | b :: l => if dist a ≤ dist b then a :: b :: l else b :: insertByDistance dist a l

/-- The sidebar sort `[...features].sort((a, b) => distanceA - distanceB)`:
a stable sort (ECMAScript `Array.prototype.sort` is stable) by the
great-circle distance from the map center, which enters the embedding as
the function `dist`. -/
def sortFeaturesByDistance (dist : Feature → ℚ) : List Feature → List Feature
  | [] => []
  | a :: l => insertByDistance dist a (sortFeaturesByDistance dist l)

/-! ## MapboxGLFeatureStateManager -/

/-- A feature-state object such as `{hover: true}` or
`{hover: false, selected: true}`: an ordered object with boolean values.
`JSON.stringify` equality on such objects is equality of these ordered
association lists. -/
abbrev StateObj := List (String × Bool)

/-- The spread merge `{...a, ...b}`: keys of `a` in order with values
overridden by `b` where present, then the keys of `b` not already in `a`. -/
def jsMergeState (a b : StateObj) : StateObj :=
  (a.map fun p =>
    match b.find? (fun q => decide (q.1 = p.1)) with
    | some q => (p.1, q.2)
    | none => p) ++
  b.filter fun q => !(a.any fun p => decide (p.1 = q.1))

/-- Lookup in a `Map` from feature id to state object. -/
def lookupState (m : List (ℕ × StateObj)) (id : ℕ) : Option StateObj :=
  (m.find? fun p => decide (p.1 = id)).map (·.2)

/-- The update `map.set(id, v)` on a `Map` with unique keys: an existing key
keeps its position, a new key is appended. -/
def mapSet (m : List (ℕ × StateObj)) (id : ℕ) (v : StateObj) : List (ℕ × StateObj) :=
  match m with
  | [] => [(id, v)]
  | p :: rest => if p.1 = id then (id, v) :: rest else p :: mapSet rest id v

/-- The manager plus the render layer it pushes to: `states` is the
manager's internal record (`this.states`), `hoveredId`/`selectedId` its two
identifiers, and `rendered` records, per feature, the state object last
pushed through `map.setFeatureState` (removed again by
`map.removeFeatureState`). -/
structure FSMState where
  states : List (ℕ × StateObj)
  hoveredId : Option ℕ
  selectedId : Option ℕ
  rendered : List (ℕ × StateObj)
deriving DecidableEq

/-- A freshly constructed manager over a fresh source: no tracked states,
nothing hovered or selected, nothing pushed. -/
def initialFSM : FSMState :=
  { states := [], hoveredId := none, selectedId := none, rendered := [] }

/-- `getState(id)`: the tracked state object, or `{}` when none. -/
def getState (s : FSMState) (id : ℕ) : StateObj :=
  (lookupState s.states id).getD []

/-- `setFeatureState(id, stateObject)`: merge into the current state and,
only when the merged state differs (the `JSON.stringify` comparison), store
it internally and push it to the render layer. -/
def setFeatureState (s : FSMState) (id : ℕ) (obj : StateObj) : FSMState :=
  let currentState := getState s id
  let newState := jsMergeState currentState obj
  if currentState = newState then s
  else { s with states := mapSet s.states id newState, rendered := mapSet s.rendered id newState }

/-- The calls `setFeatureState(id, stateObject)` makes to
`map.setFeatureState`: one push of the merged state when it differs from the
current state, none otherwise. -/
def setFeatureStatePushes (s : FSMState) (id : ℕ) (obj : StateObj) : List (ℕ × StateObj) :=
  let currentState := getState s id
  let newState := jsMergeState currentState obj
  if currentState = newState then [] else [(id, newState)]

/-- The first block of `setHovered`: clear the previous hovered feature's
hover flag, unless none was hovered. -/
def clearPrevHover (s : FSMState) : FSMState :=
  match s.hoveredId with
  | some prev => setFeatureState s prev [("hover", false)]
  | none => s

/-- The second block of `setHovered`: set the new feature's hover flag,
unless the new id is null. -/
def setNewHover (s : FSMState) (id : Option ℕ) : FSMState :=
  match id with
  | some i => setFeatureState s i [("hover", true)]
  | none => s

/-- `setHovered(id)`: `false` and no work when `id` is already hovered;
otherwise clear the previous hovered feature's hover flag, set the new one
(unless `id` is null), record `id` and return `true`. -/
def setHovered (s : FSMState) (id : Option ℕ) : FSMState × Bool :=
  if s.hoveredId = id then (s, false)
  else ({ setNewHover (clearPrevHover s) id with hoveredId := id }, true)

/-- The first block of `setSelected`: clear the previous selection's flag,
unless none was selected. -/
def clearPrevSelected (s : FSMState) : FSMState :=
  match s.selectedId with
  | some prev => setFeatureState s prev [("selected", false)]
  | none => s

/-- The second block of `setSelected`: set the new feature's selected flag,
unless the new id is null. -/
def setNewSelected (s : FSMState) (id : Option ℕ) : FSMState :=
  match id with
  | some i => setFeatureState s i [("selected", true)]
  | none => s

/-- `setSelected(id)`: the same discipline as `setHovered` on the
independent `selected` flag. -/
def setSelected (s : FSMState) (id : Option ℕ) : FSMState × Bool :=
  if s.selectedId = id then (s, false)
  else ({ setNewSelected (clearPrevSelected s) id with selectedId := id }, true)

/-- `clearState(id)`: when the feature is tracked, drop its record and
remove its feature state from the render layer. -/
def clearState (s : FSMState) (id : ℕ) : FSMState :=
  if s.states.any (fun p => decide (p.1 = id)) then
    { s with
      states := s.states.filter fun p => !decide (p.1 = id)
      rendered := s.rendered.filter fun p => !decide (p.1 = id) }
  else s

/-- `clearAllStates()`: forget every record, both identifiers, and clear all
feature state on the render layer (`map.removeFeatureState({source})`). -/
def clearAllStates (_ : FSMState) : FSMState := initialFSM

/-- The manager operations a client can interleave. -/
inductive FSMOp where
  | hover (id : Option ℕ) : FSMOp
  | select (id : Option ℕ) : FSMOp
  | clearOne (id : ℕ) : FSMOp
  | clearAll : FSMOp

/-- Apply one operation. -/
def applyFSMOp (s : FSMState) : FSMOp → FSMState
  | .hover id => (setHovered s id).1
  | .select id => (setSelected s id).1
  | .clearOne id => clearState s id
  | .clearAll => clearAllStates s

/-- Run a sequence of operations on a fresh manager. -/
def runFSMOps (ops : List FSMOp) : FSMState :=
  ops.foldl applyFSMOp initialFSM

deriving instance DecidableEq for Except

/-! ## Concrete inputs used by witnesses and counterexamples -/

/-- A date environment for concrete runs whose `Date.parse` rejects
everything (the concrete inputs below never reach the date tests). -/
def envF : JsEnv := ⟨fun _ => false, fun _ => false⟩

/-- A raw row with in-range coordinates. -/
def rowA : RawRow := [("Latitude", "18.5"), ("Longitude", "73.8"), ("Name", "A")]

/-- A raw row whose latitude is out of range. -/
def rowB : RawRow := [("Latitude", "91"), ("Longitude", "73.8"), ("Name", "B")]

/-- A feature at the origin carrying a string category. -/
def featPark : Feature :=
  { geometry := { lng := .fin 0, lat := .fin 0 }
    properties := [("Category", .str "Park"), ("row_number", .num (.fin 2))] }

/-- A feature at the origin whose category cell was coerced to a number. -/
def featNum : Feature :=
  { geometry := { lng := .fin 0, lat := .fin 0 }
    properties := [("Category", convertField "5" (some .number)), ("row_number", .num (.fin 3))] }

/-! ## Association-list and row lemmas -/

theorem lookupVal_jsSet_self (row : Row) (k : String) (v : JSValue) :
    lookupVal (jsSet row k v) k = some v := by
  induction row with
  | nil => simp [jsSet, lookupVal]
  | cons p rest ih =>
    unfold jsSet
    by_cases h : p.1 = k
    · simp [h, lookupVal]
    · simpa [lookupVal, List.find?_cons, h] using ih

theorem lookupVal_embedRaw (row : RawRow) (k : String) :
    lookupVal (embedRaw row) k = (lookupStr row k).map .str := by
  induction row with
  | nil => simp [embedRaw, lookupVal, lookupStr]
  | cons p rest ih =>
    by_cases h : p.1 = k
    · simp [embedRaw, lookupVal, lookupStr, List.find?_cons, h]
    · simpa [embedRaw, lookupVal, lookupStr, List.find?_cons, h] using ih

theorem lookupVal_processRow (ft : List (String × FieldType)) (i : ℕ) (row : RawRow) :
    lookupVal (processRow ft i row) "row_number" = some (.num (.fin ((i + 2 : ℕ) : ℚ))) :=
  lookupVal_jsSet_self _ _ _

theorem processRow_ne_embedRaw (ft : List (String × FieldType)) (i : ℕ) (row : RawRow) :
    processRow ft i row ≠ embedRaw row := by
  intro h
  have h1 := lookupVal_processRow ft i row
  rw [h, lookupVal_embedRaw] at h1
  cases hs : lookupStr row "row_number" <;> simp [hs] at h1

/-! ## partitionRows lemmas -/

theorem partitionRows_snd (ft : List (String × FieldType)) (i : ℕ) (data : List RawRow) :
    (partitionRows ft i data).2 = data.filter fun r => !isValidRow r := by
  induction data generalizing i with
  | nil => simp [partitionRows]
  | cons row rest ih =>
    by_cases h : isValidRow row <;>
      simp [partitionRows, h, List.filter_cons, ih]

theorem partitionRows_length (ft : List (String × FieldType)) (i : ℕ) (data : List RawRow) :
    (partitionRows ft i data).1.length + (partitionRows ft i data).2.length = data.length := by
  induction data generalizing i with
  | nil => simp [partitionRows]
  | cons row rest ih =>
    have hrec := ih (i + 1)
    by_cases h : isValidRow row <;>
      simp only [partitionRows, h, if_true, if_false, Bool.false_eq_true, List.length_cons] <;>
      omega

theorem mem_partitionRows_fst (ft : List (String × FieldType)) (i : ℕ) (data : List RawRow)
    (r : Row) :
    r ∈ (partitionRows ft i data).1 ↔
      ∃ j, ∃ hj : j < data.length,
        isValidRow data[j] = true ∧ r = processRow ft (i + j) data[j] := by
  induction data generalizing i with
  | nil => simp [partitionRows]
  | cons row rest ih =>
    by_cases h : isValidRow row
    · simp only [partitionRows, h, if_true, List.mem_cons, ih (i + 1)]
      constructor
      · rintro (rfl | ⟨j, hj, hv, rfl⟩)
        · exact ⟨0, by simp, by simpa using h, by simp⟩
        · exact ⟨j + 1, by simpa using hj, by simpa using hv, by
            simp only [List.getElem_cons_succ]
            congr 1
            omega⟩
      · rintro ⟨j, hj, hv, rfl⟩
        cases j with
        | zero => exact Or.inl (by simp)
        | succ j =>
          refine Or.inr ⟨j, by simpa using hj, by simpa using hv, ?_⟩
          simp only [List.getElem_cons_succ]
          congr 1
          omega
    · simp only [partitionRows, h, if_false, Bool.false_eq_true, ih (i + 1)]
      constructor
      · rintro ⟨j, hj, hv, rfl⟩
        refine ⟨j + 1, by simpa using hj, by simpa using hv, ?_⟩
        simp only [List.getElem_cons_succ]
        congr 1
        omega
      · rintro ⟨j, hj, hv, rfl⟩
        cases j with
        | zero => simp at hv; exact absurd hv h
        | succ j =>
          refine ⟨j, by simpa using hj, by simpa using hv, ?_⟩
          simp only [List.getElem_cons_succ]
          congr 1
          omega

/-! ## Coordinate-validity characterization -/

theorem coordCheck (x : JSNum) (lo hi : ℚ) :
    (x.isNaN = false ∧ jsLe (.fin lo) x = true ∧ jsLe x (.fin hi) = true) ↔
      ∃ q, x = .fin q ∧ lo ≤ q ∧ q ≤ hi := by
  cases x with
  | nan => simp [JSNum.isNaN]
  | inf neg => cases neg <;> simp [JSNum.isNaN, jsLe]
  | fin q => simp [JSNum.isNaN, jsLe]

theorem isValidRow_iff (row : RawRow) :
    isValidRow row = true ↔
      ((∃ q, pfStr row "Latitude" = .fin q ∧ -90 ≤ q ∧ q ≤ 90) ∧
       (∃ q, pfStr row "Longitude" = .fin q ∧ -180 ≤ q ∧ q ≤ 180)) := by
  unfold isValidRow
  simp only [Bool.and_eq_true, Bool.not_eq_true']
  constructor
  · rintro ⟨⟨⟨⟨⟨h1, h2⟩, h3⟩, h4⟩, h5⟩, h6⟩
    exact ⟨(coordCheck _ _ _).mp ⟨h2, h5, h6⟩, (coordCheck _ _ _).mp ⟨h1, h3, h4⟩⟩
  · rintro ⟨hlat, hlon⟩
    obtain ⟨h1, h3, h4⟩ := (coordCheck _ _ _).mpr hlon
    obtain ⟨h2, h5, h6⟩ := (coordCheck _ _ _).mpr hlat
    exact ⟨⟨⟨⟨⟨h1, h2⟩, h3⟩, h4⟩, h5⟩, h6⟩

theorem processData_invalidRows_eq (env : JsEnv) (data : List RawRow) :
    (processData env data).metadata.invalidRows =
      (partitionRows (detectFieldTypes env data) 0 data).2 := rfl

theorem processData_features_eq (env : JsEnv) (data : List RawRow) :
    (processData env data).features =
      (partitionRows (detectFieldTypes env data) 0 data).1.map mkFeature := rfl

/-- C1: every input row lands in exactly one output bucket of `processData`:
the invalid rows are retained verbatim (in order) in `metadata.invalidRows`,
the bucket sizes add up to the input length, validity is exactly "latitude
parses to a rational in `[-90, 90]` and longitude to one in `[-180, 180]`",
and row `j` of the input yields a feature (witnessed by its unique
`row_number` value `j + 2`) precisely when it is valid. -/
theorem processData_row_partition (env : JsEnv) (data : List RawRow) :
    (processData env data).metadata.invalidRows = (data.filter fun r => !isValidRow r)
    ∧ (processData env data).features.length
        + (processData env data).metadata.invalidRows.length = data.length
    ∧ (∀ row : RawRow, isValidRow row = true ↔
        ((∃ q, pfStr row "Latitude" = .fin q ∧ -90 ≤ q ∧ q ≤ 90) ∧
         (∃ q, pfStr row "Longitude" = .fin q ∧ -180 ≤ q ∧ q ≤ 180)))
    ∧ ∀ j, ∀ hj : j < data.length,
        (isValidRow data[j] = true ↔
          ∃ f ∈ (processData env data).features,
            lookupVal f.properties "row_number" = some (.num (.fin ((j + 2 : ℕ) : ℚ)))) := by
  set ft := detectFieldTypes env data with hft
  refine ⟨?_, ?_, fun row => isValidRow_iff row, ?_⟩
  · rw [processData_invalidRows_eq, partitionRows_snd]
  · rw [processData_invalidRows_eq, processData_features_eq, List.length_map]
    exact partitionRows_length ft 0 data
  · intro j hj
    constructor
    · intro hv
      refine ⟨mkFeature (processRow ft j data[j]), ?_, ?_⟩
      · rw [processData_features_eq]
        exact List.mem_map_of_mem _
          ((mem_partitionRows_fst ft 0 data _).mpr ⟨j, hj, hv, by rw [Nat.zero_add]⟩)
      · exact lookupVal_processRow ft j data[j]
    · rintro ⟨f, hf, hlk⟩
      rw [processData_features_eq] at hf
      obtain ⟨r, hr, rfl⟩ := List.mem_map.mp hf
      obtain ⟨j2, hj2, hv2, rfl⟩ := (mem_partitionRows_fst ft 0 data r).mp hr
      have hprops : (mkFeature (processRow ft (0 + j2) data[j2])).properties =
          processRow ft (0 + j2) data[j2] := rfl
      have := lookupVal_processRow ft (0 + j2) data[j2]
      rw [hprops, this] at hlk
      have hcast : ((0 + j2 + 2 : ℕ) : ℚ) = ((j + 2 : ℕ) : ℚ) := by
        simpa using hlk
      have : j2 = j := by
        have := Nat.cast_inj.mp hcast
        omega
      subst this
      exact hv2

/-! ## Mutation of the input rows by processData -/

theorem rowsAfter_getElem (ft : List (String × FieldType)) (data : List RawRow) (i j : ℕ) :
    (rowsAfter ft i data)[j]? =
      (data[j]?).map fun row =>
        if isValidRow row then processRow ft (i + j) row else embedRaw row := by
  induction data generalizing i j with
  | nil => simp [rowsAfter]
  | cons row rest ih =>
    cases j with
    | zero => simp [rowsAfter]
    | succ j =>
      have harith : i + 1 + j = i + (j + 1) := by omega
      simpa [rowsAfter, harith] using ih (i + 1) j

/-- C2 (amended): `processData` mutates its input. The row objects handed in
are left alone exactly when invalid; a valid input row is coerced in place
and receives the injected `row_number` key, so after the call it differs
from its unmutated embedding. -/
theorem processData_mutates_input (env : JsEnv) (data : List RawRow) (j : ℕ) (row : RawRow)
    (hrow : data[j]? = some row) :
    (isValidRow row = false → (processDataRowsAfter env data)[j]? = some (embedRaw row))
    ∧ (isValidRow row = true →
        (processDataRowsAfter env data)[j]? =
            some (processRow (detectFieldTypes env data) j row)
          ∧ (processDataRowsAfter env data)[j]? ≠ some (embedRaw row)) := by
  unfold processDataRowsAfter
  rw [rowsAfter_getElem, hrow]
  constructor
  · intro h
    simp [h]
  · intro h
    have hz : (0 : ℕ) + j = j := Nat.zero_add j
    have hmap : Option.map
        (fun row => if isValidRow row = true then
          processRow (detectFieldTypes env data) (0 + j) row else embedRaw row) (some row) =
        some (processRow (detectFieldTypes env data) j row) := by
      simp [h, hz]
    rw [hmap]
    refine ⟨rfl, ?_⟩
    simp only [ne_eq, Option.some.injEq]
    exact processRow_ne_embedRaw _ _ _

/-- C2 witness: on a concrete valid row, the input object after the run is
not the untouched original. -/
theorem processData_mutates_input_witness :
    (processDataRowsAfter envF [rowA])[0]? ≠ some (embedRaw rowA) :=
  ((processData_mutates_input envF [rowA] 0 rowA (by decide)).2 (by decide)).2

/-- C2 counterexample: the claim "the conversion leaves every input row
object unchanged" fails at this concrete input, whose single (valid) row is
coerced in place and given a `row_number` key. -/
theorem processData_mutates_input_counterexample :
    processDataRowsAfter envF [[("Latitude", "10"), ("Longitude", "20")]] ≠
      [embedRaw [("Latitude", "10"), ("Longitude", "20")]] := by decide

/-! ## Type-inference characterization -/

theorem detectFieldType_characterization (env : JsEnv) (values : List (Option String)) :
    (nonEmptyValues values = [] → detectFieldType env values = .string)
    ∧ (detectFieldType env values = .number ↔ nonEmptyValues values ≠ [] ∧
        ∀ v ∈ nonEmptyValues values, (jsParseFloat v).isNaN = false)
    ∧ (detectFieldType env values = .boolean ↔ nonEmptyValues values ≠ [] ∧
        ¬(∀ v ∈ nonEmptyValues values, (jsParseFloat v).isNaN = false) ∧
        ∀ v ∈ nonEmptyValues values, jsToLower v = "true" ∨ jsToLower v = "false")
    ∧ (detectFieldType env values = .date ↔ nonEmptyValues values ≠ [] ∧
        ¬(∀ v ∈ nonEmptyValues values, (jsParseFloat v).isNaN = false) ∧
        ¬(∀ v ∈ nonEmptyValues values, jsToLower v = "true" ∨ jsToLower v = "false") ∧
        ∀ v ∈ nonEmptyValues values,
          env.dateParseOk v = true ∧ env.dateNonDegenerate v = true)
    ∧ (detectFieldType env values = .string ↔ nonEmptyValues values = [] ∨
        (¬(∀ v ∈ nonEmptyValues values, (jsParseFloat v).isNaN = false) ∧
         ¬(∀ v ∈ nonEmptyValues values, jsToLower v = "true" ∨ jsToLower v = "false") ∧
         ¬(∀ v ∈ nonEmptyValues values,
            env.dateParseOk v = true ∧ env.dateNonDegenerate v = true))) := by
  have hnum : FieldType.number ≠ FieldType.boolean ∧ FieldType.number ≠ FieldType.date ∧
      FieldType.number ≠ FieldType.string ∧ FieldType.boolean ≠ FieldType.date ∧
      FieldType.boolean ≠ FieldType.string ∧ FieldType.date ≠ FieldType.string := by
    refine ⟨?_, ?_, ?_, ?_, ?_, ?_⟩ <;> intro h <;> cases h
  obtain ⟨hnb, hnd, hns, hbd, hbs, hds⟩ := hnum
  by_cases h0 : (nonEmptyValues values).isEmpty
  · have hvs : nonEmptyValues values = [] := by simpa using h0
    have hdet : detectFieldType env values = .string := by simp [detectFieldType, h0]
    rw [hdet]
    refine ⟨fun _ => rfl, ?_, ?_, ?_, ?_⟩
    · exact iff_of_false (Ne.symm hns) fun h => h.1 hvs
    · exact iff_of_false (Ne.symm hbs) fun h => h.1 hvs
    · exact iff_of_false (Ne.symm hds) fun h => h.1 hvs
    · exact iff_of_true rfl (Or.inl hvs)
  · have hvs : nonEmptyValues values ≠ [] := by simpa using h0
    by_cases h1 : (nonEmptyValues values).all fun v => !(jsParseFloat v).isNaN
    · have hp1 : ∀ v ∈ nonEmptyValues values, (jsParseFloat v).isNaN = false := by
        simpa [List.all_eq_true] using h1
      have hdet : detectFieldType env values = .number := by simp [detectFieldType, h0, h1]
      rw [hdet]
      refine ⟨fun h => absurd h hvs, ?_, ?_, ?_, ?_⟩
      · exact iff_of_true rfl ⟨hvs, hp1⟩
      · exact iff_of_false hnb fun h => h.2.1 hp1
      · exact iff_of_false hnd fun h => h.2.1 hp1
      · exact iff_of_false hns fun h => h.elim (fun he => hvs he) fun h => h.1 hp1
    · have hp1 : ¬∀ v ∈ nonEmptyValues values, (jsParseFloat v).isNaN = false := by
        simpa [List.all_eq_true] using h1
      by_cases h2 : (nonEmptyValues values).all
          fun v => jsToLower v = "true" || jsToLower v = "false"
      · have hp2 : ∀ v ∈ nonEmptyValues values,
            jsToLower v = "true" ∨ jsToLower v = "false" := by
          simpa [List.all_eq_true] using h2
        have hdet : detectFieldType env values = .boolean := by
          simp [detectFieldType, h0, h1, h2]
        rw [hdet]
        refine ⟨fun h => absurd h hvs, ?_, ?_, ?_, ?_⟩
        · exact iff_of_false (Ne.symm hnb) fun h => hp1 h.2
        · exact iff_of_true rfl ⟨hvs, hp1, hp2⟩
        · exact iff_of_false hbd fun h => h.2.2.1 hp2
        · exact iff_of_false hbs fun h => h.elim (fun he => hvs he) fun h => h.2.1 hp2
      · have hp2 : ¬∀ v ∈ nonEmptyValues values,
            jsToLower v = "true" ∨ jsToLower v = "false" := by
          simpa [List.all_eq_true] using h2
        by_cases h3 : (nonEmptyValues values).all env.dateParseOk
        · by_cases h4 : (nonEmptyValues values).all env.dateNonDegenerate
          · have hp34 : ∀ v ∈ nonEmptyValues values,
                env.dateParseOk v = true ∧ env.dateNonDegenerate v = true :=
              fun v hv => ⟨List.all_eq_true.mp h3 v hv, List.all_eq_true.mp h4 v hv⟩
            have hdet : detectFieldType env values = .date := by
              simp [detectFieldType, h0, h1, h2, h3, h4]
            rw [hdet]
            refine ⟨fun h => absurd h hvs, ?_, ?_, ?_, ?_⟩
            · exact iff_of_false (Ne.symm hnd) fun h => hp1 h.2
            · exact iff_of_false (Ne.symm hbd) fun h => hp2 h.2.2
            · exact iff_of_true rfl ⟨hvs, hp1, hp2, hp34⟩
            · exact iff_of_false hds fun h => h.elim (fun he => hvs he) fun h => h.2.2 hp34
          · have hp34 : ¬∀ v ∈ nonEmptyValues values,
                env.dateParseOk v = true ∧ env.dateNonDegenerate v = true := fun hall =>
              (by simpa [List.all_eq_true] using h4 : ¬∀ v ∈ nonEmptyValues values,
                env.dateNonDegenerate v = true) fun v hv => (hall v hv).2
            have hdet : detectFieldType env values = .string := by
              simp [detectFieldType, h0, h1, h2, h3, h4]
            rw [hdet]
            refine ⟨fun _ => rfl, ?_, ?_, ?_, ?_⟩
            · exact iff_of_false (Ne.symm hns) fun h => hp1 h.2
            · exact iff_of_false (Ne.symm hbs) fun h => hp2 h.2.2
            · exact iff_of_false (Ne.symm hds) fun h => hp34 h.2.2.2
            · exact iff_of_true rfl (Or.inr ⟨hp1, hp2, hp34⟩)
        · have hp34 : ¬∀ v ∈ nonEmptyValues values,
              env.dateParseOk v = true ∧ env.dateNonDegenerate v = true := fun hall =>
            (by simpa [List.all_eq_true] using h3 : ¬∀ v ∈ nonEmptyValues values,
              env.dateParseOk v = true) fun v hv => (hall v hv).1
          have hdet : detectFieldType env values = .string := by
            simp [detectFieldType, h0, h1, h2, h3]
          rw [hdet]
          refine ⟨fun _ => rfl, ?_, ?_, ?_, ?_⟩
          · exact iff_of_false (Ne.symm hns) fun h => hp1 h.2
          · exact iff_of_false (Ne.symm hbs) fun h => hp2 h.2.2
          · exact iff_of_false (Ne.symm hds) fun h => hp34 h.2.2.2
          · exact iff_of_true rfl (Or.inr ⟨hp1, hp2, hp34⟩)

/-- C3 (amended): each column's entry in the field-type map is detected from
all non-empty values of that column across all rows, and is
unanimous-or-string with priority number before boolean before date: number
exactly when every non-empty value is non-NaN under `parseFloat` (this test
also accepts `Infinity`, which is not finite), else boolean exactly when
every non-empty value is case-insensitively true/false, else date exactly
when every non-empty value passes both date tests, otherwise string; a
column with no non-empty values is string. -/
theorem detectFieldTypes_unanimous_or_string (env : JsEnv) (data : List RawRow)
    (k : String) (ft : FieldType) (hmem : (k, ft) ∈ detectFieldTypes env data) :
    (nonEmptyValues (colValues data k) = [] → ft = .string)
    ∧ (ft = .number ↔ nonEmptyValues (colValues data k) ≠ [] ∧
        ∀ v ∈ nonEmptyValues (colValues data k), (jsParseFloat v).isNaN = false)
    ∧ (ft = .boolean ↔ nonEmptyValues (colValues data k) ≠ [] ∧
        ¬(∀ v ∈ nonEmptyValues (colValues data k), (jsParseFloat v).isNaN = false) ∧
        ∀ v ∈ nonEmptyValues (colValues data k),
          jsToLower v = "true" ∨ jsToLower v = "false")
    ∧ (ft = .date ↔ nonEmptyValues (colValues data k) ≠ [] ∧
        ¬(∀ v ∈ nonEmptyValues (colValues data k), (jsParseFloat v).isNaN = false) ∧
        ¬(∀ v ∈ nonEmptyValues (colValues data k),
            jsToLower v = "true" ∨ jsToLower v = "false") ∧
        ∀ v ∈ nonEmptyValues (colValues data k),
          env.dateParseOk v = true ∧ env.dateNonDegenerate v = true)
    ∧ (ft = .string ↔ nonEmptyValues (colValues data k) = [] ∨
        (¬(∀ v ∈ nonEmptyValues (colValues data k), (jsParseFloat v).isNaN = false) ∧
         ¬(∀ v ∈ nonEmptyValues (colValues data k),
            jsToLower v = "true" ∨ jsToLower v = "false") ∧
         ¬(∀ v ∈ nonEmptyValues (colValues data k),
            env.dateParseOk v = true ∧ env.dateNonDegenerate v = true))) := by
  have hft : ft = detectFieldType env (colValues data k) := by
    cases data with
    | nil => simp [detectFieldTypes] at hmem
    | cons first rest =>
      simp only [detectFieldTypes, List.mem_map] at hmem
      obtain ⟨p, _, heq⟩ := hmem
      have h1 : p.1 = k := congrArg Prod.fst heq
      have h2 : detectFieldType env (colValues (first :: rest) p.1) = ft :=
        congrArg Prod.snd heq
      rw [← h2, h1]
  rw [hft]
  exact detectFieldType_characterization env (colValues data k)

/-- C3 witness: on a concrete two-row sheet whose column `A` holds `3.5` and
`7`, the claim theorem yields that the column's non-empty values are all
numeric. -/
theorem detectFieldTypes_unanimous_witness :
    nonEmptyValues (colValues [[("A", "3.5")], [("A", "7")]] "A") ≠ [] ∧
      ∀ v ∈ nonEmptyValues (colValues [[("A", "3.5")], [("A", "7")]] "A"),
        (jsParseFloat v).isNaN = false :=
  (detectFieldTypes_unanimous_or_string envF [[("A", "3.5")], [("A", "7")]] "A"
    FieldType.number (by decide)).2.1.mp rfl

/-- C3 counterexample: a column whose only non-empty value is `Infinity` is
inferred as `number`, although `Infinity` does not parse to a finite number
(`parseFloat` yields positive infinity, which merely is not NaN); the claim's
"parses as a finite number" is therefore wrong as stated. -/
theorem detectFieldTypes_infinity_counterexample :
    detectFieldTypes envF [[("V", "Infinity")]] = [("V", FieldType.number)] ∧
      jsParseFloat "Infinity" = JSNum.inf false := by decide

/-! ## convertToGeoJSON error behaviour -/

/-- C4 (amended): when the coordinate columns are detected but no row passes
geographic validation, sheet-mapper's `convertToGeoJSON` rejects (the
`No valid coordinates found in the data` outcome) instead of returning a
feature list; `SheetToGeoJSON.processData`, by contrast, does not fail in
that case (see the counterexample). -/
theorem convertToGeoJSON_rejects_no_valid_rows (first : Row) (rest : List Row)
    (latF lngF : String)
    (hlat : findField latitudeFields (rowKeys first) = some latF)
    (hlng : findField longitudeFields (rowKeys first) = some lngF)
    (hinv : ∀ r ∈ first :: rest, validCoords latF lngF r = false) :
    convertToGeoJSON (first :: rest) = .error .noValidRows := by
  have hfil : (first :: rest).filter (validCoords latF lngF) = [] :=
    List.filter_eq_nil_iff.mpr (by simpa using hinv)
  unfold convertToGeoJSON
  simp [hlat, hlng, hfil, numberRows]

/-- C4 witness: a concrete one-row input with recognized coordinate columns
and an out-of-range latitude is rejected. -/
theorem convertToGeoJSON_rejects_no_valid_rows_witness :
    convertToGeoJSON [[("lat", JSValue.str "91"), ("lng", JSValue.str "0")]] =
      .error .noValidRows :=
  convertToGeoJSON_rejects_no_valid_rows [("lat", .str "91"), ("lng", .str "0")] []
    "lat" "lng" (by decide) (by decide) (by decide)

/-- C4 counterexample: on an input whose only row fails validation,
`processData` does not fail: it returns a FeatureCollection with an empty
feature list and the row kept in `metadata.invalidRows`. -/
theorem processData_returns_empty_collection_counterexample :
    (processData envF [rowB]).features = [] ∧
      (processData envF [rowB]).metadata.invalidRows = [rowB] ∧
      (processData envF [rowB]).metadata.totalRows = 1 ∧
      (processData envF [rowB]).metadata.validRows = 0 := by decide

/-- Helper: `findField` finds nothing exactly when no key matches the alias
set case-insensitively. -/
theorem findField_eq_none_iff (aliases keys : List String) :
    findField aliases keys = none ↔
      ∀ k ∈ keys, aliases.contains (jsToLower k) = false := by
  simp [findField, List.find?_eq_none]

/-- C5: `convertToGeoJSON` fails with the missing-coordinate-fields
rejection exactly when none of the first row's column names matches a
latitude alias or none matches a longitude alias (case-insensitively), and
the rejection carries exactly the column names that were found (its message
embeds their join). -/
theorem convertToGeoJSON_missing_fields_iff (first : Row) (rest : List Row) :
    ((∃ found, convertToGeoJSON (first :: rest) =
        .error (.missingCoordinateFields found)) ↔
      ((∀ k ∈ rowKeys first, latitudeFields.contains (jsToLower k) = false) ∨
       (∀ k ∈ rowKeys first, longitudeFields.contains (jsToLower k) = false)))
    ∧ ∀ found, convertToGeoJSON (first :: rest) = .error (.missingCoordinateFields found) →
        found = rowKeys first := by
  cases hlat : findField latitudeFields (rowKeys first) with
  | none =>
    constructor
    · refine iff_of_true ⟨rowKeys first, ?_⟩
        (Or.inl ((findField_eq_none_iff _ _).mp hlat))
      simp [convertToGeoJSON, hlat]
    · intro found hconv
      simp only [convertToGeoJSON] at hconv
      rw [hlat] at hconv
      exact (by simpa using hconv : rowKeys first = found).symm
  | some latF =>
    cases hlng : findField longitudeFields (rowKeys first) with
    | none =>
      constructor
      · refine iff_of_true ⟨rowKeys first, ?_⟩
          (Or.inr ((findField_eq_none_iff _ _).mp hlng))
        simp [convertToGeoJSON, hlat, hlng]
      · intro found hconv
        simp only [convertToGeoJSON] at hconv
        rw [hlat, hlng] at hconv
        exact (by simpa using hconv : rowKeys first = found).symm
    | some lngF =>
      have hnone : ∀ found, ¬convertToGeoJSON (first :: rest) =
          .error (.missingCoordinateFields found) := by
        intro found hconv
        simp only [convertToGeoJSON] at hconv
        rw [hlat, hlng] at hconv
        by_cases hc : (numberRows latF lngF 0
            ((first :: rest).filter (validCoords latF lngF))).length = 0 <;>
          simp [hc] at hconv
      constructor
      · refine iff_of_false (fun ⟨found, hconv⟩ => hnone found hconv) ?_
        rintro (h | h)
        · rw [← findField_eq_none_iff] at h
          rw [hlat] at h
          cases h
        · rw [← findField_eq_none_iff] at h
          rw [hlng] at h
          cases h
      · exact fun found hconv => absurd hconv (hnone found)

/-- C5 witness: a concrete input whose only column is `name` is rejected with
exactly that column name reported. -/
theorem convertToGeoJSON_missing_fields_witness :
    (∃ found, convertToGeoJSON [[("name", JSValue.str "a")]] =
        .error (.missingCoordinateFields found)) ∧
      (convertToGeoJSON [[("name", JSValue.str "a")]] =
          .error (.missingCoordinateFields ["name"]) →
        ["name"] = rowKeys [("name", JSValue.str "a")]) := by
  have h := convertToGeoJSON_missing_fields_iff [("name", JSValue.str "a")] []
  exact ⟨h.1.mpr (Or.inl (by decide)), h.2 ["name"]⟩

/-! ## Proximity sort: sortedness, permutation and stability -/

theorem insertByDistance_perm (dist : Feature → ℚ) (a : Feature) (l : List Feature) :
    (insertByDistance dist a l).Perm (a :: l) := by
  induction l with
  | nil => simp [insertByDistance]
  | cons b l ih =>
    by_cases hab : dist a ≤ dist b
    · rw [insertByDistance, if_pos hab]
    · rw [insertByDistance, if_neg hab]
      exact (ih.cons b).trans (List.Perm.swap a b l)

theorem pairwise_insertByDistance (dist : Feature → ℚ) (a : Feature) (l : List Feature)
    (h : l.Pairwise fun x y => dist x ≤ dist y) :
    (insertByDistance dist a l).Pairwise fun x y => dist x ≤ dist y := by
  induction l with
  | nil => simp [insertByDistance]
  | cons b l ih =>
    by_cases hab : dist a ≤ dist b
    · rw [insertByDistance, if_pos hab]
      refine List.Pairwise.cons ?_ h
      intro c hc
      rcases List.mem_cons.mp hc with rfl | hc
      · exact hab
      · exact le_trans hab (List.rel_of_pairwise_cons h hc)
    · rw [insertByDistance, if_neg hab]
      have hba : dist b ≤ dist a := le_of_not_le hab
      refine List.Pairwise.cons ?_ (ih h.of_cons)
      intro c hc
      rcases List.mem_cons.mp ((insertByDistance_perm dist a l).mem_iff.mp hc) with rfl | hc
      · exact hba
      · exact List.rel_of_pairwise_cons h hc

theorem filter_insertByDistance (dist : Feature → ℚ) (a : Feature) (l : List Feature)
    (q : ℚ) :
    (insertByDistance dist a l).filter (fun x => decide (dist x = q)) =
      if dist a = q then a :: l.filter (fun x => decide (dist x = q))
      else l.filter (fun x => decide (dist x = q)) := by
  induction l with
  | nil => by_cases h : dist a = q <;> simp [insertByDistance, List.filter_cons, h]
  | cons b l ih =>
    by_cases hab : dist a ≤ dist b
    · rw [insertByDistance, if_pos hab]
      by_cases ha : dist a = q <;> simp [List.filter_cons, ha]
    · rw [insertByDistance, if_neg hab]
      have hba : dist b < dist a := lt_of_not_le hab
      by_cases ha : dist a = q
      · have hb : ¬dist b = q := fun hbq => absurd (hbq.trans ha.symm ▸ hba) (lt_irrefl _)
        simp [List.filter_cons, hb, ih, ha]
      · by_cases hb : dist b = q <;> simp [List.filter_cons, hb, ih, ha]

/-- C6: the sidebar sort is monotone and stable. For every distance function
(the great-circle distance from the fixed map center) and feature list, the
output of `sortFeaturesByDistance` has non-decreasing distances along the
list, is a permutation of the input, and preserves the input's relative
order within every class of equal distance — in particular features at equal
distance keep their original `row_number` order. -/
theorem sortFeaturesByDistance_sorted_stable (dist : Feature → ℚ) (l : List Feature) :
    (sortFeaturesByDistance dist l).Pairwise (fun x y => dist x ≤ dist y)
    ∧ (sortFeaturesByDistance dist l).Perm l
    ∧ ∀ q : ℚ, (sortFeaturesByDistance dist l).filter (fun x => decide (dist x = q)) =
        l.filter (fun x => decide (dist x = q)) := by
  induction l with
  | nil => exact ⟨List.Pairwise.nil, List.Perm.refl _, fun q => rfl⟩
  | cons a l ih =>
    obtain ⟨hpw, hperm, hstab⟩ := ih
    refine ⟨pairwise_insertByDistance dist a _ hpw, ?_, ?_⟩
    · exact (insertByDistance_perm dist a _).trans (hperm.cons a)
    · intro q
      rw [sortFeaturesByDistance, filter_insertByDistance]
      by_cases ha : dist a = q <;> simp [List.filter_cons, ha, hstab q]

/-! ## Conjunctive column filters -/

theorem filter_sublist_of_imp {α : Type} (l : List α) (p q : α → Bool)
    (h : ∀ a, p a = true → q a = true) : (l.filter p).Sublist (l.filter q) := by
  induction l with
  | nil => simp
  | cons a l ih =>
    by_cases hp : p a = true
    · rw [List.filter_cons_of_pos hp, List.filter_cons_of_pos (h a hp)]
      exact ih.cons₂ a
    · rw [List.filter_cons_of_neg hp]
      by_cases hq : q a = true
      · rw [List.filter_cons_of_pos hq]
        exact ih.cons a
      · rw [List.filter_cons_of_neg hq]
        exact ih

theorem matchesFilters_append (filters : List (String × String)) (extra : String × String)
    (f : Feature) :
    matchesFilters (filters ++ [extra]) f =
      (matchesFilters filters f &&
        (decide (extra.2 = "") || jsStrictEqStr (lookupVal f.properties extra.1) extra.2)) := by
  simp [matchesFilters, List.all_append]

/-- C7: column filtering is conjunctive and monotonically shrinking. Adding
one more filter entry yields a sublist (so never a larger set) of the result
under the original filters, every surviving feature still satisfies the
original filters, and an unset (empty-valued) filter entry is a
pass-through. -/
theorem applyColumnFilters_conjunctive (filters : List (String × String))
    (extra : String × String) (features : List Feature) :
    (applyColumnFilters (filters ++ [extra]) features).Sublist
        (applyColumnFilters filters features)
    ∧ (applyColumnFilters (filters ++ [extra]) features).length ≤
        (applyColumnFilters filters features).length
    ∧ (∀ f ∈ applyColumnFilters (filters ++ [extra]) features,
        matchesFilters filters f = true)
    ∧ (extra.2 = "" →
        applyColumnFilters (filters ++ [extra]) features =
          applyColumnFilters filters features) := by
  have himp : ∀ f, matchesFilters (filters ++ [extra]) f = true →
      matchesFilters filters f = true := by
    intro f hf
    rw [matchesFilters_append, Bool.and_eq_true] at hf
    exact hf.1
  have hsub : (applyColumnFilters (filters ++ [extra]) features).Sublist
      (applyColumnFilters filters features) :=
    filter_sublist_of_imp features _ _ himp
  refine ⟨hsub, hsub.length_le, ?_, ?_⟩
  · intro f hf
    exact himp f (List.of_mem_filter hf)
  · intro hempty
    unfold applyColumnFilters
    congr 1
    funext f
    rw [matchesFilters_append, hempty]
    simp

/-- C7 witness: with a concrete feature list, an unset second filter leaves
the one-filter result unchanged. -/
theorem applyColumnFilters_conjunctive_witness :
    applyColumnFilters ([("Category", "Park")] ++ [("Name", "")]) [featPark, featNum] =
      applyColumnFilters [("Category", "Park")] [featPark, featNum] :=
  (applyColumnFilters_conjunctive [("Category", "Park")] ("Name", "")
    [featPark, featNum]).2.2.2 rfl

/-! ## Feature state manager: idempotence and the record/render invariant -/

/-- C8: a repeated id is a no-op for both `setHovered` and `setSelected`:
when the argument equals the current hovered (resp. selected) id, the call
returns the unchanged-signal `false` and the state — internal records,
identifiers and everything pushed to the render layer — is exactly the state
before the call, so no state write happens. -/
theorem setHovered_setSelected_idempotent (s : FSMState) (idh ids : Option ℕ)
    (hh : s.hoveredId = idh) (hs : s.selectedId = ids) :
    setHovered s idh = (s, false) ∧ setSelected s ids = (s, false) := by
  constructor
  · rw [setHovered, if_pos hh]
  · rw [setSelected, if_pos hs]

/-- C8 witness: a fresh manager, hovered and selected both unset; repeating
`setHovered(null)` and `setSelected(null)` changes nothing and reports
`false`. -/
theorem setHovered_setSelected_idempotent_witness :
    setHovered initialFSM none = (initialFSM, false) ∧
      setSelected initialFSM none = (initialFSM, false) :=
  setHovered_setSelected_idempotent initialFSM none none rfl rfl

theorem lookupState_cons_of_eq (p : ℕ × StateObj) (m : List (ℕ × StateObj)) (n : ℕ)
    (h : p.1 = n) : lookupState (p :: m) n = some p.2 := by
  simp [lookupState, List.find?_cons, h]

theorem lookupState_cons_of_ne (p : ℕ × StateObj) (m : List (ℕ × StateObj)) (n : ℕ)
    (h : ¬p.1 = n) : lookupState (p :: m) n = lookupState m n := by
  simp [lookupState, List.find?_cons, h]

theorem lookupState_mapSet (m : List (ℕ × StateObj)) (id : ℕ) (v : StateObj) (n : ℕ) :
    lookupState (mapSet m id v) n = if n = id then some v else lookupState m n := by
  induction m with
  | nil =>
    by_cases h : n = id
    · simp [mapSet, lookupState, List.find?_cons, h]
    · have h2 : ¬id = n := fun hc => h hc.symm
      simp [mapSet, lookupState, List.find?_cons, h, h2]
  | cons p rest ih =>
    by_cases hp : p.1 = id
    · rw [mapSet, if_pos hp]
      by_cases h : n = id
      · simp [lookupState, List.find?_cons, h]
      · have h2 : ¬id = n := fun hc => h hc.symm
        have hpn : ¬p.1 = n := fun hc => h2 (hp.symm.trans hc)
        simp [lookupState, List.find?_cons, h, h2, hpn]
    · rw [mapSet, if_neg hp]
      by_cases hpn : p.1 = n
      · have hn : ¬n = id := fun hc => hp (hpn.trans hc)
        simp [lookupState, List.find?_cons, hpn, hn]
      · have ih2 := ih
        simp only [lookupState] at ih2
        simp [lookupState, List.find?_cons, hpn, ih2]
theorem lookupState_filterOut (m : List (ℕ × StateObj)) (id n : ℕ) :
    lookupState (m.filter fun p => !decide (p.1 = id)) n =
      if n = id then none else lookupState m n := by
  induction m with
  | nil => by_cases h : n = id <;> simp [lookupState, h]
  | cons p rest ih =>
    by_cases hp : p.1 = id
    · rw [List.filter_cons_of_neg (by simp [hp])]
      by_cases h : n = id
      · simpa [h] using ih
      · have hpn : ¬p.1 = n := fun hc => h (hc.symm.trans hp)
        rw [ih, lookupState_cons_of_ne p rest n hpn]
    · rw [List.filter_cons_of_pos (by simp [hp])]
      by_cases hpn : p.1 = n
      · have hn : ¬n = id := fun hc => hp (hpn.trans hc)
        rw [lookupState_cons_of_eq _ _ _ hpn, lookupState_cons_of_eq p rest n hpn, if_neg hn]
      · rw [lookupState_cons_of_ne _ _ _ hpn, lookupState_cons_of_ne p rest n hpn, ih]

/-- The record/render agreement: every feature's tracked state equals what
was last pushed to the render layer for it. -/
def recordMatchesRender (s : FSMState) : Prop :=
  ∀ n, lookupState s.states n = lookupState s.rendered n

theorem recordMatchesRender_setFeatureState (s : FSMState) (id : ℕ) (obj : StateObj)
    (h : recordMatchesRender s) : recordMatchesRender (setFeatureState s id obj) := by
  show recordMatchesRender (if getState s id = jsMergeState (getState s id) obj then s
    else { s with states := mapSet s.states id (jsMergeState (getState s id) obj),
                  rendered := mapSet s.rendered id (jsMergeState (getState s id) obj) })
  by_cases hc : getState s id = jsMergeState (getState s id) obj
  · rw [if_pos hc]
    exact h
  · rw [if_neg hc]
    intro n
    show lookupState (mapSet s.states id (jsMergeState (getState s id) obj)) n =
      lookupState (mapSet s.rendered id (jsMergeState (getState s id) obj)) n
    rw [lookupState_mapSet, lookupState_mapSet, h n]

theorem recordMatchesRender_clearPrevHover (s : FSMState)
    (h : recordMatchesRender s) : recordMatchesRender (clearPrevHover s) := by
  unfold clearPrevHover
  cases s.hoveredId with
  | none => exact h
  | some prev => exact recordMatchesRender_setFeatureState s prev _ h

theorem recordMatchesRender_setNewHover (s : FSMState) (id : Option ℕ)
    (h : recordMatchesRender s) : recordMatchesRender (setNewHover s id) := by
  unfold setNewHover
  cases id with
  | none => exact h
  | some i => exact recordMatchesRender_setFeatureState s i _ h

theorem recordMatchesRender_clearPrevSelected (s : FSMState)
    (h : recordMatchesRender s) : recordMatchesRender (clearPrevSelected s) := by
  unfold clearPrevSelected
  cases s.selectedId with
  | none => exact h
  | some prev => exact recordMatchesRender_setFeatureState s prev _ h

theorem recordMatchesRender_setNewSelected (s : FSMState) (id : Option ℕ)
    (h : recordMatchesRender s) : recordMatchesRender (setNewSelected s id) := by
  unfold setNewSelected
  cases id with
  | none => exact h
  | some i => exact recordMatchesRender_setFeatureState s i _ h

theorem recordMatchesRender_applyFSMOp (s : FSMState) (op : FSMOp)
    (h : recordMatchesRender s) : recordMatchesRender (applyFSMOp s op) := by
  cases op with
  | hover id =>
    show recordMatchesRender (setHovered s id).1
    rw [setHovered]
    by_cases he : s.hoveredId = id
    · rw [if_pos he]
      exact h
    · rw [if_neg he]
      exact fun n =>
        recordMatchesRender_setNewHover (clearPrevHover s) id
          (recordMatchesRender_clearPrevHover s h) n
  | select id =>
    show recordMatchesRender (setSelected s id).1
    rw [setSelected]
    by_cases he : s.selectedId = id
    · rw [if_pos he]
      exact h
    · rw [if_neg he]
      exact fun n =>
        recordMatchesRender_setNewSelected (clearPrevSelected s) id
          (recordMatchesRender_clearPrevSelected s h) n
  | clearOne id =>
    show recordMatchesRender (clearState s id)
    unfold clearState
    by_cases hc : s.states.any fun p => decide (p.1 = id)
    · rw [if_pos hc]
      intro n
      simp only [lookupState_filterOut]
      by_cases hn : n = id <;> simp [hn, h n]
    · rw [if_neg hc]
      exact h
  | clearAll =>
    intro n
    rfl

theorem recordMatchesRender_runFSMOps (ops : List FSMOp) :
    recordMatchesRender (runFSMOps ops) := by
  have hgen : ∀ (ops : List FSMOp) (s : FSMState), recordMatchesRender s →
      recordMatchesRender (ops.foldl applyFSMOp s) := by
    intro ops
    induction ops with
    | nil => exact fun s h => h
    | cons op rest ih =>
      intro s h
      exact ih (applyFSMOp s op) (recordMatchesRender_applyFSMOp s op h)
  exact hgen ops initialFSM fun n => rfl

/-- C9: after every sequence of hover/select/clear operations started on a
fresh manager, the internal per-feature record agrees, feature by feature,
with what was last pushed to the render layer; and a `setFeatureState` call
pushes to the render layer exactly when it changes the internal record (the
value-equality comparison skips redundant writes). -/
theorem stateManager_record_matches_render :
    (∀ (ops : List FSMOp) (n : ℕ),
      lookupState (runFSMOps ops).states n = lookupState (runFSMOps ops).rendered n)
    ∧ ∀ (s : FSMState) (id : ℕ) (obj : StateObj),
        setFeatureStatePushes s id obj ≠ [] ↔
          (setFeatureState s id obj).states ≠ s.states := by
  constructor
  · exact fun ops => recordMatchesRender_runFSMOps ops
  · intro s id obj
    have hpush : setFeatureStatePushes s id obj =
        (if getState s id = jsMergeState (getState s id) obj then []
         else [(id, jsMergeState (getState s id) obj)]) := rfl
    have hset : setFeatureState s id obj =
        (if getState s id = jsMergeState (getState s id) obj then s
         else { s with states := mapSet s.states id (jsMergeState (getState s id) obj),
                       rendered := mapSet s.rendered id (jsMergeState (getState s id) obj) }) :=
      rfl
    rw [hpush, hset]
    by_cases hc : getState s id = jsMergeState (getState s id) obj
    · rw [if_pos hc, if_pos hc]
      simp
    · rw [if_neg hc, if_neg hc]
      constructor
      · intro _
        intro hstates
        apply hc
        have hlk : some (jsMergeState (getState s id) obj) = lookupState s.states id := by
          have hcg := congrArg (fun m => lookupState m id) hstates
          simpa [lookupState_mapSet] using hcg
        show (lookupState s.states id).getD [] = jsMergeState (getState s id) obj
        rw [← hlk]
        rfl
      · intro _
        simp

/-! ## Strict-equality filtering of coerced properties -/

/-- C10: the filter predicate compares the select's value, always a string,
with the feature's property under strict (type-sensitive) equality. A
feature whose property in the filtered column was coerced by `convertField`
to a non-string type (number, boolean or date) therefore fails every
non-empty active filter on that column, whatever its displayed value, and is
excluded from the filtered set. -/
theorem coerced_property_excluded_by_filter (filters : List (String × String))
    (features : List Feature) (f : Feature) (field s c : String) (ft : FieldType)
    (hmem : (field, s) ∈ filters) (hs : s ≠ "")
    (hprop : lookupVal f.properties field = some (convertField c (some ft)))
    (hft : ft ≠ .string) :
    f ∉ applyColumnFilters filters features := by
  intro hin
  have hmatch : matchesFilters filters f = true := List.of_mem_filter hin
  unfold matchesFilters at hmatch
  have hall : (decide (s = "") || jsStrictEqStr (lookupVal f.properties field) s) = true :=
    List.all_eq_true.mp hmatch (field, s) hmem
  rw [hprop] at hall
  have hne : jsStrictEqStr (some (convertField c (some ft))) s = false := by
    cases ft with
    | number => rfl
    | boolean => rfl
    | date => rfl
    | string => exact absurd rfl hft
  rw [hne, Bool.or_false, decide_eq_true_eq] at hall
  exact hs hall

/-- C10 witness: the feature whose `Category` cell was coerced to the number
5 is excluded by the active filter selecting the string value `5`. -/
theorem coerced_property_excluded_by_filter_witness :
    featNum ∉ applyColumnFilters [("Category", "5")] [featNum] :=
  coerced_property_excluded_by_filter [("Category", "5")] [featNum] featNum
    "Category" "5" "5" FieldType.number (by decide) (by decide) rfl (by decide)

end SheetMapper
